import Mathlib

/-!
Verification of the polars data-science toolbox helpers
(`_pandas_style_info`, `_null_report`, `_clean_column_names`,
`register_extensions` in `polars_dc_toolbox.py`).

Shallow embedding conventions:
* a DataFrame is a `Table`: the engine-maintained row count plus the ordered
  list of columns; each column carries its name and dtype (strings modelled
  as lists of Unicode code points) and its cells, with `Option.none`
  modelling a null value;
* lowercasing a name is modelled at the code-point level (ASCII uppercase
  letters 65..90 map to 97..122, every other code point is fixed), the
  space code point is 32 and the underscore is 95;
* the printed reports are modelled as structured line lists (`ILine`,
  `NLine`) on standard output plus a list of diagnostic strings on the
  error stream; fixed-width padding and the 2-decimal rounding done by the
  format strings are presentation details carried alongside the exact
  values;
* fallible engine calls (`null_count`, `estimated_size`) are modelled as
  `Except String` inputs; Python's `try`/`except` becomes a total match on
  those inputs, so "returns normally" is inherent in the function types.
-/

/-- A column: `name` and `dtype` are the engine strings as Unicode code
points, `cells` are the column's values with `Option.none` for a null. -/
structure Col where
  name : List Nat
  dtype : List Nat
  cells : List (Option Int)
  deriving DecidableEq

/-- A DataFrame: the row count (`df.height`, the first component of
`df.shape`) together with the ordered columns (`df.schema` order). -/
structure Table where
  nrows : Nat
  cols : List Col
  deriving DecidableEq

/-- Well-formedness provided by the engine: every column stores exactly
`nrows` cells. -/
def wfT (t : Table) : Prop := ∀ c ∈ t.cols, c.cells.length = t.nrows

instance wfT.dec (t : Table) : Decidable (wfT t) := by
  unfold wfT
  infer_instance

/-- Per-column null count, the engine aggregate `df.null_count()` restricted
to one column: the number of `none` cells. -/
def nullCount (c : Col) : Nat := c.cells.countP (fun v => v.isNone)

/-- Convert a Lean string literal to its code points, for concrete tables. -/
def strCodes (s : String) : List Nat := s.toList.map Char.toNat

/-! ## Column name normalizer (`_clean_column_names`) -/

/-- Code-point level model of `.name.to_lowercase()`. -/
def lowerCP (n : Nat) : Nat := if 65 ≤ n ∧ n ≤ 90 then n + 32 else n

/-- Code-point level model of `x.replace(" ", "_")` applied to one point. -/
def underscoreSpace (n : Nat) : Nat := if n = 32 then 95 else n

/-- The name transform of `_clean_column_names`: lowercase the whole name,
then replace every space with an underscore. -/
def cleanName (s : List Nat) : List Nat := (s.map lowerCP).map underscoreSpace

/-- `_clean_column_names`: `self.select(pl.all().name.to_lowercase()
.name.map(lambda x: x.replace(" ", "_")))` — a new frame with the same
cells and dtypes in the same order, only the names rewritten. -/
def clean_column_names (t : Table) : Table :=
  ⟨t.nrows, t.cols.map (fun c => { c with name := cleanName c.name })⟩

theorem cleanChar_idem (n : Nat) :
    underscoreSpace (lowerCP (underscoreSpace (lowerCP n))) =
      underscoreSpace (lowerCP n) := by
  unfold lowerCP underscoreSpace
  split_ifs <;> omega

theorem cleanName_idem (s : List Nat) : cleanName (cleanName s) = cleanName s := by
  unfold cleanName
  simp only [List.map_map]
  apply List.map_congr_left
  intro a _
  simpa [Function.comp] using cleanChar_idem a

/-- C1: for every table, `clean_names` returns a table whose column names
are exactly the original names transformed by: lowercase the entire name,
then replace every space (code point 32) by an underscore (95), altering
no other code point; in particular `Age Years` becomes `age_years`. -/
theorem clean_names_transform :
    (∀ t : Table,
        (clean_column_names t).cols.map Col.name =
          t.cols.map (fun c => cleanName c.name))
    ∧ (∀ s : List Nat,
        cleanName s = s.map (fun ch => if lowerCP ch = 32 then 95 else lowerCP ch))
    ∧ cleanName (strCodes ("Age Years")) = strCodes ("age_years") := by
  refine ⟨fun t => ?_, fun s => ?_, ?_⟩
  · simp [clean_column_names]
  · simp only [cleanName, List.map_map]
    rfl
  · rfl

/-- C8: `clean_names` is idempotent — a second application changes nothing,
in particular the column names are the same after one or two applications. -/
theorem clean_names_idempotent (t : Table) :
    clean_column_names (clean_column_names t) = clean_column_names t := by
  unfold clean_column_names
  simp only [List.map_map, Table.mk.injEq, true_and]
  apply List.map_congr_left
  intro c _
  simp [Function.comp, cleanName_idem]

/-- C9: `clean_names` preserves the row count, the column count, the
column order and the column data (cells and dtypes, position by position);
only the names change, and since the embedding is purely functional the
input table value is never mutated — a fresh `Table` is returned. -/
theorem clean_names_preserves_frame (t : Table) :
    (clean_column_names t).nrows = t.nrows
    ∧ (clean_column_names t).cols.length = t.cols.length
    ∧ (clean_column_names t).cols.map Col.cells = t.cols.map Col.cells
    ∧ (clean_column_names t).cols.map Col.dtype = t.cols.map Col.dtype
    ∧ (clean_column_names t).cols.map Col.name =
        t.cols.map (fun c => cleanName c.name) := by
  refine ⟨rfl, ?_, ?_, ?_, ?_⟩ <;> simp [clean_column_names]

/-! ## Extension registrar (`register_extensions`) -/

/-- The class attribute table of `pl.DataFrame`, modelled as an association
list from attribute name to an opaque implementation tag (`Nat`); lookup
follows Python attribute resolution on the first matching entry. -/
abbrev Attrs := List (String × Nat)

/-- `hasattr(pl.DataFrame, n)`. -/
def hasattrB (a : Attrs) (n : String) : Bool := a.any (fun p => p.1 == n)

/-- `getattr(pl.DataFrame, n, None)`: the implementation currently bound to
the name, if any. -/
def getattrOpt (a : Attrs) (n : String) : Option Nat :=
  (a.find? (fun p => p.1 == n)).map (fun p => p.2)

/-- `setattr(pl.DataFrame, n, v)`: rebind the first entry for `n`, or append
a fresh one. -/
def setattrL : Attrs → String → Nat → Attrs
  | [], n, v => [(n, v)]
  | p :: rest, n, v =>
      if p.1 = n then (n, v) :: rest else p :: setattrL rest n v

/-- The `extensions` list of `register_extensions`, with the three method
implementations as distinct tags. -/
def extensionsL : Attrs := [("info", 0), ("null_report", 1), ("clean_names", 2)]

/-- One confirmation line on standard output. -/
inductive RegLine
  | confirm (count : Nat)
  deriving DecidableEq

/-- The body of the `for name, func in extensions` loop: attach only when
`hasattr` is false, counting the newly attached ones. -/
def regStep (st : Attrs × Nat) (e : String × Nat) : Attrs × Nat :=
  if hasattrB st.1 e.1 then st else (setattrL st.1 e.1 e.2, st.2 + 1)

/-- `register_extensions()`: fold the loop over the three extensions and
print the confirmation line exactly when `registered_count > 0`. Returns
the updated class attributes, the count, and the stdout lines. -/
def register_extensions (dfClass : Attrs) : Attrs × Nat × List RegLine :=
  let res := extensionsL.foldl regStep (dfClass, 0)
  (res.1, res.2, if 0 < res.2 then [RegLine.confirm res.2] else [])

theorem getattrOpt_setattrL (a : Attrs) (n m : String) (v : Nat) :
    getattrOpt (setattrL a n v) m = if m = n then some v else getattrOpt a m := by
  induction a with
  | nil =>
      by_cases h : m = n
      · subst h
        simp [setattrL, getattrOpt]
      · have hb : ¬(n = m) := fun hEq => h hEq.symm
        simp [setattrL, getattrOpt, hb, h]
  | cons p rest ih =>
      by_cases hp : p.1 = n
      · rw [setattrL, if_pos hp]
        by_cases hm : m = n
        · subst hm
          simp [getattrOpt]
        · have hb : ¬(n = m) := fun hEq => hm hEq.symm
          have hb2 : ¬(p.1 = m) := fun hEq => hm (hEq ▸ hp)
          simp [getattrOpt, hb, hb2, hm]
      · rw [setattrL, if_neg hp]
        by_cases hpm : p.1 = m
        · have hmn : ¬(m = n) := fun hEq => hp (hpm.symm ▸ hEq ▸ rfl)
          simp [getattrOpt, hpm, hmn]
        · have hb : (p.1 == m) = false := by simp [hpm]
          simp only [getattrOpt, List.find?_cons, hb]
          exact ih

theorem hasattrB_setattrL (a : Attrs) (n m : String) (v : Nat) :
    hasattrB (setattrL a n v) m = ((m == n) || hasattrB a m) := by
  induction a with
  | nil =>
      by_cases h : n = m
      · subst h
        simp [setattrL, hasattrB]
      · have h2 : ¬(m = n) := fun hEq => h hEq.symm
        simp [setattrL, hasattrB, h, h2]
  | cons p rest ih =>
      by_cases hp : p.1 = n
      · subst hp
        by_cases h : p.1 = m
        · simp [setattrL, hasattrB, h]
        · have h2 : ¬(m = p.1) := fun hEq => h hEq.symm
          simp [setattrL, hasattrB, h, h2]
      · rw [setattrL, if_neg hp]
        simp only [hasattrB, List.any_cons] at ih ⊢
        rw [ih]
        cases hpm : (p.1 == m) <;> cases hmn : (m == n) <;> simp

theorem hasattrB_getattrOpt (a : Attrs) (n : String) :
    hasattrB a n = true ↔ ∃ v, getattrOpt a n = some v := by
  induction a with
  | nil => simp [hasattrB, getattrOpt]
  | cons p rest ih =>
      by_cases h : p.1 = n
      · simp [hasattrB, getattrOpt, h]
      · have hb : (p.1 == n) = false := by simp [h]
        simp only [hasattrB, List.any_cons, getattrOpt,
          List.find?_cons, hb, Bool.false_or]
        exact ih

theorem regStep_preserves (st : Attrs × Nat) (e : String × Nat) (n : String)
    (v : Nat) (h : getattrOpt st.1 n = some v) :
    getattrOpt (regStep st e).1 n = some v := by
  by_cases hc : hasattrB st.1 e.1 = true
  · simpa [regStep, hc] using h
  · have hcf : hasattrB st.1 e.1 = false := eq_false_of_ne_true hc
    have hne : ¬(n = e.1) := by
      intro hEq
      subst hEq
      exact hc ((hasattrB_getattrOpt st.1 e.1).2 ⟨v, h⟩)
    simp [regStep, hcf, getattrOpt_setattrL, hne, h]

theorem regFold_preserves (l : List (String × Nat)) :
    ∀ (st : Attrs × Nat) (n : String) (v : Nat),
      getattrOpt st.1 n = some v →
      getattrOpt (l.foldl regStep st).1 n = some v := by
  induction l with
  | nil => intro st n v h; exact h
  | cons e rest ih =>
      intro st n v h
      exact ih _ n v (regStep_preserves st e n v h)

theorem regStep_hasattr_mono (st : Attrs × Nat) (e : String × Nat)
    (m : String) (h : hasattrB st.1 m = true) :
    hasattrB (regStep st e).1 m = true := by
  by_cases hc : hasattrB st.1 e.1 = true
  · simpa [regStep, hc] using h
  · have hcf : hasattrB st.1 e.1 = false := eq_false_of_ne_true hc
    simp [regStep, hcf, hasattrB_setattrL, h]

theorem regFold_hasattr_mono (l : List (String × Nat)) :
    ∀ (st : Attrs × Nat) (m : String), hasattrB st.1 m = true →
      hasattrB (l.foldl regStep st).1 m = true := by
  induction l with
  | nil => intro st m h; exact h
  | cons e rest ih =>
      intro st m h
      exact ih _ m (regStep_hasattr_mono st e m h)

theorem regStep_installs_self (st : Attrs × Nat) (e : String × Nat) :
    hasattrB (regStep st e).1 e.1 = true := by
  by_cases hc : hasattrB st.1 e.1 = true
  · simp [regStep, hc]
  · have hcf : hasattrB st.1 e.1 = false := eq_false_of_ne_true hc
    simp [regStep, hcf, hasattrB_setattrL]

theorem regFold_installs (l : List (String × Nat)) :
    ∀ (st : Attrs × Nat), ∀ e ∈ l, hasattrB (l.foldl regStep st).1 e.1 = true := by
  induction l with
  | nil => intro st e h; cases h
  | cons e₀ rest ih =>
      intro st e he
      rcases List.mem_cons.1 he with h | h
      · subst h
        exact regFold_hasattr_mono rest _ e.1 (regStep_installs_self st e)
      · exact ih _ e h

theorem regFold_id_of_all_present (l : List (String × Nat)) :
    ∀ (st : Attrs × Nat), (∀ e ∈ l, hasattrB st.1 e.1 = true) →
      l.foldl regStep st = st := by
  induction l with
  | nil => intro st _; rfl
  | cons e rest ih =>
      intro st h
      have he : hasattrB st.1 e.1 = true := h e (List.mem_cons_self e rest)
      have hstep : regStep st e = st := by simp [regStep, he]
      simp only [List.foldl_cons, hstep]
      exact ih st (fun e' h' => h e' (List.mem_cons_of_mem e h'))

theorem regFold_count_mono (l : List (String × Nat)) :
    ∀ (st : Attrs × Nat), st.2 ≤ (l.foldl regStep st).2 := by
  induction l with
  | nil => intro st; exact Nat.le_refl _
  | cons e rest ih =>
      intro st
      refine Nat.le_trans ?_ (ih (regStep st e))
      by_cases hc : hasattrB st.1 e.1 = true
      · simp [regStep, hc]
      · simp only [regStep, eq_false_of_ne_true hc, Bool.false_eq_true,
          if_false]
        exact Nat.le_succ _

theorem regFold_count_pos (l : List (String × Nat)) :
    ∀ (st : Attrs × Nat), (∃ e ∈ l, hasattrB st.1 e.1 = false) →
      st.2 < (l.foldl regStep st).2 := by
  induction l with
  | nil => intro st h; rcases h with ⟨e, he, _⟩; cases he
  | cons e₀ rest ih =>
      intro st h
      rcases h with ⟨e, he, hmiss⟩
      rcases List.mem_cons.1 he with hEq | hmem
      · subst hEq
        have hstep : regStep st e = (setattrL st.1 e.1 e.2, st.2 + 1) := by
          simp [regStep, hmiss]
        rw [List.foldl_cons, hstep]
        have hmono := regFold_count_mono rest (setattrL st.1 e.1 e.2, st.2 + 1)
        exact Nat.lt_of_lt_of_le (Nat.lt_succ_self _) hmono
      · by_cases hc : hasattrB st.1 e₀.1 = true
        · have hstep : regStep st e₀ = st := by simp [regStep, hc]
          rw [List.foldl_cons, hstep]
          exact ih st ⟨e, hmem, hmiss⟩
        · have hstep : regStep st e₀ = (setattrL st.1 e₀.1 e₀.2, st.2 + 1) := by
            simp [regStep, eq_false_of_ne_true hc]
          rw [List.foldl_cons, hstep]
          have hmono := regFold_count_mono rest (setattrL st.1 e₀.1 e₀.2, st.2 + 1)
          exact Nat.lt_of_lt_of_le (Nat.lt_succ_self _) hmono

/-- C3: `register_extensions` (a) never overwrites an operation already
bound to some name — whatever `getattr` returned before a call, it returns
the same implementation after the call, whether the binding pre-existed on
the type or was attached by a prior call (the statement quantifies over
every starting attribute table, so it covers repeated calls); (b) a second
call attaches zero operations and prints nothing; (c) the confirmation
line is printed exactly when at least one of the three names was not yet
present, i.e. when at least one operation was newly attached. -/
theorem register_extensions_contract (a : Attrs) :
    (∀ (n : String) (v : Nat), getattrOpt a n = some v →
        getattrOpt (register_extensions a).1 n = some v)
    ∧ (register_extensions (register_extensions a).1).2.1 = 0
    ∧ (register_extensions (register_extensions a).1).2.2 = []
    ∧ ((register_extensions a).2.2 ≠ [] ↔
        ∃ e ∈ extensionsL, hasattrB a e.1 = false) := by
  have hpresent : ∀ e ∈ extensionsL,
      hasattrB (register_extensions a).1 e.1 = true := by
    intro e he
    exact regFold_installs extensionsL (a, 0) e he
  have hsecond :
      extensionsL.foldl regStep ((register_extensions a).1, 0) =
        ((register_extensions a).1, 0) :=
    regFold_id_of_all_present extensionsL _ hpresent
  refine ⟨?_, ?_, ?_, ?_⟩
  · intro n v h
    exact regFold_preserves extensionsL (a, 0) n v h
  · conv_lhs => rw [register_extensions]
    simp only [hsecond]
  · conv_lhs => rw [register_extensions]
    simp only [hsecond]
    rfl
  · rw [register_extensions]
    simp only
    constructor
    · intro h
      by_contra hnone
      push_neg at hnone
      have hall : ∀ e ∈ extensionsL, hasattrB a e.1 = true := by
        intro e he
        cases hb : hasattrB a e.1
        · exact absurd hb (hnone e he)
        · rfl
      rw [regFold_id_of_all_present extensionsL (a, 0) hall] at h
      simp at h
    · intro h
      have hpos := regFold_count_pos extensionsL (a, 0) h
      rw [if_pos hpos]
      simp

/-- Witness for C3 at a concrete attribute table on which `info` is already
bound: the binding survives, the second call is silent, and the first call
does print (since `null_report` is missing). -/
theorem register_extensions_contract_witness :
    getattrOpt (register_extensions ([("info", 7)])).1 ("info") = some 7
    ∧ (register_extensions (register_extensions ([("info", 7)])).1).2.1 = 0
    ∧ (register_extensions (register_extensions ([("info", 7)])).1).2.2 = []
    ∧ (register_extensions ([("info", 7)])).2.2 ≠ [] := by
  have h := register_extensions_contract ([("info", 7)])
  exact ⟨h.1 ("info") 7 (by rfl), h.2.1, h.2.2.1,
    h.2.2.2.2 ⟨("null_report", 1), by decide⟩⟩

/-! ## Null report (`_null_report`) -/

/-- One row of the `null_stats` frame: `column_name`, `null_count` and
`null_percentage`. The percentage is `Option Rat`: `none` models the
undefined float produced by the division when `total_rows` is zero (0/0 is
NaN), `some q` the exact value of `round(count / total * 100, 2)`. -/
structure NRow where
  column_name : List Nat
  null_count : Nat
  null_percentage : Option Rat
  deriving DecidableEq

/-- `.round(2)`: round to two decimal places (the exact tie-breaking mode
of the engine is irrelevant to every claim below). -/
def round2 (q : Rat) : Rat := ((round (q * 100) : Int) : Rat) / 100

/-- `(pl.col("null_count") / total_rows * 100).round(2)` for one column:
undefined (`none`) when the frame has zero rows. -/
def pctOf (total count : Nat) : Option Rat :=
  if total = 0 then none
  else some (round2 ((count : Rat) / (total : Rat) * 100))

/-- The frame after `transpose(...)`, `rename(...)` and `with_columns(...)`:
one row per column, in schema order. -/
def null_stats_rows (t : Table) : List NRow :=
  t.cols.map (fun c => ⟨c.name, nullCount c, pctOf t.nrows (nullCount c)⟩)

/-- After `.filter(pl.col("null_count") > 0)`. -/
def nullFiltered (t : Table) : List NRow :=
  (null_stats_rows t).filter (fun r => decide (0 < r.null_count))

/-- The `descending=True` sort order on percentages: on defined values it
is `≥`; `none` (NaN) sorts above every defined value, matching the
engine's float ordering (unreachable on well-formed frames anyway). -/
def pctGe (a b : Option Rat) : Prop :=
  match a, b with
  | none, _ => True
  | some _, none => False
  | some x, some y => y ≤ x

instance pctGe.dec : ∀ a b : Option Rat, Decidable (pctGe a b)
  | none, _ => isTrue trivial
  | some _, none => isFalse (fun h => h)
  | some x, some y => inferInstanceAs (Decidable (y ≤ x))

theorem pctGe_total (a b : Option Rat) : pctGe a b ∨ pctGe b a :=
  match a, b with
  | none, _ => Or.inl trivial
  | some _, none => Or.inr trivial
  | some x, some y => le_total y x

theorem pctGe_trans (a b c : Option Rat) (h1 : pctGe a b) (h2 : pctGe b c) :
    pctGe a c :=
  match a, b, c with
  | none, _, _ => trivial
  | some _, none, _ => absurd h1 (fun h => h)
  | some _, some _, none => absurd h2 (fun h => h)
  | some _, some _, some _ => le_trans h2 h1

/-- Row comparison used by `.sort("null_percentage", descending=True)`. -/
def rowGe (a b : NRow) : Prop := pctGe a.null_percentage b.null_percentage

instance rowGe.dec : DecidableRel rowGe := fun a b =>
  pctGe.dec a.null_percentage b.null_percentage

instance rowGe.total : IsTotal NRow rowGe :=
  ⟨fun a b => pctGe_total a.null_percentage b.null_percentage⟩

instance rowGe.trans : IsTrans NRow rowGe :=
  ⟨fun a b c h1 h2 =>
    pctGe_trans a.null_percentage b.null_percentage c.null_percentage h1 h2⟩

/-- The fully processed `null_stats` frame for the given engine counts:
transpose to rows, add the percentage, filter `null_count > 0`, sort by
percentage descending. -/
def null_rows_of (t : Table) (counts : List Nat) : List NRow :=
  List.insertionSort rowGe
    (((t.cols.zip counts).map
        (fun p => (⟨p.1.name, p.2, pctOf t.nrows p.2⟩ : NRow))).filter
      (fun r => decide (0 < r.null_count)))

/-- The processed `null_stats` frame under a correct engine. -/
def null_report_rows (t : Table) : List NRow :=
  List.insertionSort rowGe (nullFiltered t)

/-- One stdout line of `_null_report`. -/
inductive NLine
  | header (total : Nat)
  | success
  | row (r : NRow)
  deriving DecidableEq

/-- `_null_report` with the engine's `null_count()` result passed in as a
fallible input (`Except.error` models an exception raised inside the
`try`). Returns the stdout lines and the stderr diagnostics; the `except`
branch prints nothing to stdout and exactly one line to stderr, and the
function always returns. -/
def null_report_with (t : Table) (res : Except String (List Nat)) :
    List NLine × List String :=
  match res with
  | Except.error e => ([], ["Error generating null report: " ++ e])
  | Except.ok counts =>
      (NLine.header t.nrows ::
        (if null_rows_of t counts = [] then [NLine.success]
         else (null_rows_of t counts).map NLine.row), [])

/-- `_null_report` under a correctly functioning engine: the counts fed to
the pipeline are the per-column null counts of the frame itself. -/
def null_report (t : Table) : List NLine :=
  (null_report_with t (Except.ok (t.cols.map nullCount))).1

theorem zip_self_map {α β : Type} (l : List α) (f : α → β) :
    l.zip (l.map f) = l.map (fun a => (a, f a)) := by
  induction l with
  | nil => rfl
  | cons a l ih => simp [ih]

theorem null_rows_of_correct (t : Table) :
    null_rows_of t (t.cols.map nullCount) = null_report_rows t := by
  unfold null_rows_of null_report_rows nullFiltered null_stats_rows
  rw [zip_self_map, List.map_map]
  rfl

theorem null_report_eq (t : Table) :
    null_report t =
      NLine.header t.nrows ::
        (if null_report_rows t = [] then [NLine.success]
         else (null_report_rows t).map NLine.row) := by
  unfold null_report null_report_with
  simp only [null_rows_of_correct]

/-- Extract the data row printed by an `NLine`, if any. -/
def lineRow : NLine → Option NRow
  | NLine.row r => some r
  | _ => none

theorem null_report_printed_rows (t : Table) :
    (null_report t).filterMap lineRow = null_report_rows t := by
  rw [null_report_eq]
  by_cases h : null_report_rows t = []
  · simp [h, lineRow, List.filterMap_cons]
  · rw [if_neg h]
    simp only [List.filterMap_cons, lineRow]
    rw [List.filterMap_map]
    have : (lineRow ∘ NLine.row) = Option.some := by
      funext r
      rfl
    rw [this, List.filterMap_some]

theorem nullCount_le_length (c : Col) : nullCount c ≤ c.cells.length :=
  List.countP_le_length _

theorem nullFiltered_of_zero (t : Table) (hwf : wfT t) (h0 : t.nrows = 0) :
    nullFiltered t = [] := by
  unfold nullFiltered null_stats_rows
  rw [List.filter_eq_nil_iff]
  intro r hr
  rcases List.mem_map.1 hr with ⟨c, hc, rfl⟩
  have hlen : c.cells.length = 0 := by rw [hwf c hc, h0]
  have : nullCount c = 0 :=
    Nat.le_antisymm (hlen ▸ nullCount_le_length c) (Nat.zero_le _)
  simp [this]

theorem null_report_zero (t : Table) (hwf : wfT t) (h0 : t.nrows = 0) :
    null_report t = [NLine.header 0, NLine.success] := by
  rw [null_report_eq]
  unfold null_report_rows
  rw [nullFiltered_of_zero t hwf h0, h0]
  rfl

/-- A one-column, zero-row frame. -/
def zeroRowT : Table :=
  ⟨0, [⟨strCodes ("a"), strCodes ("Int64"), ([] : List (Option Int))⟩]⟩

/-- The 3-row, 2-column frame of the spec scenario: `Name` with one null,
`Age Years` with two nulls (string values stand in as opaque ints). -/
def scenarioT : Table :=
  ⟨3, [⟨strCodes ("Name"), strCodes ("String"), [some 1, none, some 2]⟩,
       ⟨strCodes ("Age Years"), strCodes ("Int64"), [some 10, none, none]⟩]⟩

/-- C10: on every zero-row frame, `null_report` prints the header (with
total rows 0) followed by the fixed success message and nothing else: all
null counts are 0 on a zero-row frame, so the `null_count > 0` filter
empties the frame before any percentage could be shown. -/
theorem null_report_zero_rows (t : Table) (hwf : wfT t) (h0 : t.nrows = 0) :
    null_report t = [NLine.header 0, NLine.success] :=
  null_report_zero t hwf h0

/-- Witness for C10: the concrete zero-row frame. -/
theorem null_report_zero_rows_witness :
    null_report zeroRowT = [NLine.header 0, NLine.success] :=
  null_report_zero_rows zeroRowT (by decide) rfl

/-- Counterexample for C6: on the concrete zero-row frame, the
`with_columns` stage computes the division by the zero row count for its
single column — the resulting percentage is the undefined float (`none`),
not the value 0 claimed by the policy. -/
theorem null_report_pct_zero_cex :
    (null_stats_rows zeroRowT).map NRow.null_percentage = [Option.none]
    ∧ (Option.none : Option Rat) ≠ some 0 := by
  constructor
  · rfl
  · intro h
    cases h

/-- C6 (amended): on every zero-row frame the per-column division is
performed and yields the undefined value (`none`, the float NaN) rather
than 0 — but every column's null count is 0, so the filter removes every
row before the output is rendered: no undefined value reaches the output
(no data row is printed at all) and the operation completes normally with
an empty error stream. -/
theorem null_report_zero_rows_safe (t : Table) (hwf : wfT t)
    (h0 : t.nrows = 0) :
    (∀ r ∈ null_stats_rows t, r.null_count = 0 ∧ r.null_percentage = none)
    ∧ (∀ l ∈ null_report t, ∀ r, l ≠ NLine.row r)
    ∧ (null_report_with t (Except.ok (t.cols.map nullCount))).2 = [] := by
  refine ⟨?_, ?_, ?_⟩
  · intro r hr
    rcases List.mem_map.1 hr with ⟨c, hc, rfl⟩
    have hlen : c.cells.length = 0 := by rw [hwf c hc, h0]
    have hcnt : nullCount c = 0 :=
      Nat.le_antisymm (hlen ▸ nullCount_le_length c) (Nat.zero_le _)
    exact ⟨hcnt, by simp [hcnt, pctOf, h0]⟩
  · intro l hl r
    rw [null_report_zero t hwf h0] at hl
    simp only [List.mem_cons, List.not_mem_nil, or_false] at hl
    rcases hl with rfl | rfl
    · intro hEq; cases hEq
    · intro hEq; cases hEq
  · unfold null_report_with
    simp

/-- Witness for the amended C6 at the concrete zero-row frame. -/
theorem null_report_zero_rows_safe_witness :
    (∀ r ∈ null_stats_rows zeroRowT,
        r.null_count = 0 ∧ r.null_percentage = none)
    ∧ (∀ l ∈ null_report zeroRowT, ∀ r, l ≠ NLine.row r)
    ∧ (null_report_with zeroRowT
        (Except.ok (zeroRowT.cols.map nullCount))).2 = [] :=
  null_report_zero_rows_safe zeroRowT (by decide) rfl

theorem null_report_rows_perm (t : Table) :
    List.Perm (null_report_rows t) (nullFiltered t) :=
  List.perm_insertionSort rowGe (nullFiltered t)

theorem null_report_rows_sorted (t : Table) :
    List.Pairwise rowGe (null_report_rows t) :=
  List.sorted_insertionSort rowGe (nullFiltered t)

theorem nullFiltered_pct_some (t : Table) (hwf : wfT t) :
    ∀ r ∈ nullFiltered t, ∃ q, r.null_percentage = some q := by
  intro r hr
  rcases List.mem_filter.1 hr with ⟨hmem, hpos⟩
  rcases List.mem_map.1 hmem with ⟨c, hc, rfl⟩
  simp only [decide_eq_true_eq] at hpos
  have hlen : nullCount c ≤ t.nrows := by
    rw [← hwf c hc]
    exact nullCount_le_length c
  have hnz : ¬(t.nrows = 0) := by
    intro h
    rw [h] at hlen
    exact Nat.not_lt.2 hlen hpos
  refine ⟨round2 ((nullCount c : Rat) / (t.nrows : Rat) * 100), ?_⟩
  simp [pctOf, hnz]

/-- C2: for every well-formed table, the data rows printed by
`null_report` are exactly (as a multiset) the columns whose null count is
strictly positive, and the printed `null_percentage` values are all
defined and non-increasing from top to bottom. -/
theorem null_report_filter_sorted (t : Table) (hwf : wfT t) :
    List.Perm (((null_report t).filterMap lineRow).map NRow.column_name)
        ((t.cols.filter (fun c => decide (0 < nullCount c))).map Col.name)
    ∧ ∃ qs : List Rat,
        ((null_report t).filterMap lineRow).map NRow.null_percentage =
          qs.map Option.some
        ∧ qs.Pairwise (fun a b => b ≤ a) := by
  rw [null_report_printed_rows]
  constructor
  · have hperm := (null_report_rows_perm t).map NRow.column_name
    refine hperm.trans ?_
    unfold nullFiltered null_stats_rows
    rw [List.filter_map, List.map_map]
    rfl
  · have hsome : ∀ r ∈ null_report_rows t, ∃ q, r.null_percentage = some q := by
      intro r hr
      exact nullFiltered_pct_some t hwf r ((null_report_rows_perm t).mem_iff.1 hr)
    refine ⟨(null_report_rows t).map (fun r => r.null_percentage.getD 0), ?_, ?_⟩
    · rw [List.map_map]
      apply List.map_congr_left
      intro r hr
      rcases hsome r hr with ⟨q, hq⟩
      simp [Function.comp, hq]
    · rw [List.pairwise_map]
      refine (null_report_rows_sorted t).imp_of_mem ?_
      intro a b ha hb hab
      rcases hsome a ha with ⟨x, hx⟩
      rcases hsome b hb with ⟨y, hy⟩
      have : pctGe a.null_percentage b.null_percentage := hab
      rw [hx, hy] at this ⊢
      exact this

/-- Witness for C2 at the spec's scenario frame (3 rows; `Name` has one
null, `Age Years` two). -/
theorem null_report_filter_sorted_witness :
    List.Perm (((null_report scenarioT).filterMap lineRow).map NRow.column_name)
        ((scenarioT.cols.filter (fun c => decide (0 < nullCount c))).map Col.name)
    ∧ ∃ qs : List Rat,
        ((null_report scenarioT).filterMap lineRow).map NRow.null_percentage =
          qs.map Option.some
        ∧ qs.Pairwise (fun a b => b ≤ a) :=
  null_report_filter_sorted scenarioT (by decide)

/-! ## Summary reporter (`_pandas_style_info`, registered as `info`) -/

/-- The unit chosen by the memory formatting branch. -/
inductive MemUnit
  | KB
  | MB
  deriving DecidableEq

/-- The memory formatting of `_pandas_style_info`: megabytes when
`mem_usage > 1024**2`, kilobytes otherwise; the value is the exact
quotient (the format string rounds it to 2 decimals for display). -/
def memParts (mem : Nat) : MemUnit × Rat :=
  if 1024 ^ 2 < mem then (MemUnit.MB, (mem : Rat) / ((1024 : Rat) ^ 2))
  else (MemUnit.KB, (mem : Rat) / (1024 : Rat))

/-- One stdout line of `_pandas_style_info`. -/
inductive ILine
  | classHeader
  | rangeIndex (n : Nat)
  | totalCols (n : Nat)
  | colHeader
  | sep
  | colLine (idx : Nat) (nm : List Nat) (nonNull : Int) (dt : List Nat)
  | dtypesLine (ds : List (List Nat))
  | memLine (u : MemUnit) (v : Rat)
  deriving DecidableEq

/-- The five lines printed before the `try` block: class banner, range
index, total column count, the fixed-width column header, separator. -/
def infoHead (t : Table) : List ILine :=
  [ILine.classHeader, ILine.rangeIndex t.nrows, ILine.totalCols t.cols.length,
   ILine.colHeader, ILine.sep]

/-- The `for idx, (col_name, dtype) in enumerate(self.schema.items())`
loop: one line per column with `non_null = n_rows - null_counts[idx]`; an
out-of-range index raises (`some` error) after the earlier lines were
already printed, mirroring Python list indexing inside the `try`. -/
def colLinesAux (R : Nat) (counts : List Nat) : Nat → List Col → List ILine × Option String
  | _, [] => ([], none)
  | i, c :: cs =>
      match counts[i]? with
      | none => ([], some ("list index out of range"))
      | some k =>
          (ILine.colLine i c.name ((R : Int) - (k : Int)) c.dtype ::
              (colLinesAux R counts (i + 1) cs).1,
            (colLinesAux R counts (i + 1) cs).2)

/-- `set(str(t) for t in self.dtypes)`: the distinct dtype names; the
Python set's iteration order is not significant, modelled as a
duplicate-free list of the dtypes. -/
def dtypesOf (t : Table) : List (List Nat) := (t.cols.map Col.dtype).dedup

/-- `_pandas_style_info` with the two fallible engine calls
(`null_count()` and `estimated_size()`) passed in as `Except` inputs.
The header lines print before the `try`; any failure inside the `try` is
reduced to exactly one diagnostic on the error stream, keeping whatever
stdout had already been produced, and the function always returns. -/
def pandas_style_info_with (t : Table) (nres : Except String (List Nat))
    (sres : Except String Nat) : List ILine × List String :=
  match nres with
  | Except.error e => (infoHead t, ["Error generating info report: " ++ e])
  | Except.ok counts =>
      match colLinesAux t.nrows counts 0 t.cols with
      | (lines, some e) =>
          (infoHead t ++ lines, ["Error generating info report: " ++ e])
      | (lines, none) =>
          match sres with
          | Except.error e =>
              (infoHead t ++ lines ++ [ILine.sep],
               ["Error generating info report: " ++ e])
          | Except.ok mem =>
              (infoHead t ++ lines ++
                [ILine.sep, ILine.dtypesLine (dtypesOf t),
                 ILine.memLine (memParts mem).1 (memParts mem).2], [])

/-- `_pandas_style_info` under a correct engine: the null counts are the
frame's own per-column counts and the size estimate is `mem` bytes. -/
def pandas_style_info (t : Table) (mem : Nat) : List ILine :=
  (pandas_style_info_with t (Except.ok (t.cols.map nullCount))
    (Except.ok mem)).1

theorem colLinesAux_ok (R : Nat) (counts : List Nat) :
    ∀ (cs : List Col) (i : Nat),
      (∀ j (h : j < cs.length), counts[i + j]? = some (nullCount (cs.get ⟨j, h⟩))) →
      colLinesAux R counts i cs =
        ((List.enumFrom i cs).map (fun p =>
            ILine.colLine p.1 p.2.name ((R : Int) - (nullCount p.2 : Int)) p.2.dtype),
          none) := by
  intro cs
  induction cs with
  | nil => intro i _; rfl
  | cons c cs ih =>
      intro i hyp
      have h0 : counts[i]? = some (nullCount c) := by
        have h := hyp 0 (Nat.succ_pos _)
        simpa using h
      have hrest := ih (i + 1) (fun j h => by
        have hj := hyp (j + 1) (Nat.succ_lt_succ h)
        have heq : i + (j + 1) = i + 1 + j := by omega
        rw [heq] at hj
        exact hj)
      unfold colLinesAux
      rw [h0]
      simp only [hrest, List.enumFrom_cons, List.map_cons]

theorem colLinesAux_correct (t : Table) :
    colLinesAux t.nrows (t.cols.map nullCount) 0 t.cols =
      (t.cols.enum.map (fun p =>
          ILine.colLine p.1 p.2.name ((t.nrows : Int) - (nullCount p.2 : Int))
            p.2.dtype),
        none) := by
  have h := colLinesAux_ok t.nrows (t.cols.map nullCount) t.cols 0
    (fun j hj => by
      simp only [Nat.zero_add, List.getElem?_map, List.getElem?_eq_getElem hj,
        Option.map_some']
      rfl)
  simpa [List.enum] using h

/-- Is this line one of the per-column lines of the listing? -/
def isColLine : ILine → Bool
  | ILine.colLine _ _ _ _ => true
  | _ => false

/-- Is this line the memory-usage line? -/
def isMemLine : ILine → Bool
  | ILine.memLine _ _ => true
  | _ => false

theorem pandas_style_info_eq (t : Table) (mem : Nat) :
    pandas_style_info t mem =
      infoHead t ++
        (t.cols.enum.map (fun p =>
            ILine.colLine p.1 p.2.name ((t.nrows : Int) - (nullCount p.2 : Int))
              p.2.dtype)) ++
        [ILine.sep, ILine.dtypesLine (dtypesOf t),
          ILine.memLine (memParts mem).1 (memParts mem).2] := by
  unfold pandas_style_info pandas_style_info_with
  simp only [colLinesAux_correct]

/-- C4: `summarize` (the `info` method) prints exactly one column line per
column, in schema order: the listing block is the enumeration of the
columns, the i-th line carrying index i, the i-th column's name, the
non-null count `R − null_count` and its dtype; in particular the number of
column lines equals the number of columns. -/
theorem info_column_lines (t : Table) (mem : Nat) :
    (pandas_style_info t mem).filter isColLine =
      t.cols.enum.map (fun p =>
        ILine.colLine p.1 p.2.name ((t.nrows : Int) - (nullCount p.2 : Int))
          p.2.dtype)
    ∧ ((pandas_style_info t mem).filter isColLine).length = t.cols.length := by
  have hfilter : (pandas_style_info t mem).filter isColLine =
      t.cols.enum.map (fun p =>
        ILine.colLine p.1 p.2.name ((t.nrows : Int) - (nullCount p.2 : Int))
          p.2.dtype) := by
    rw [pandas_style_info_eq, List.filter_append, List.filter_append]
    have h1 : (infoHead t).filter isColLine = [] := rfl
    have h2 : ([ILine.sep, ILine.dtypesLine (dtypesOf t),
        ILine.memLine (memParts mem).1 (memParts mem).2]).filter isColLine = [] := rfl
    rw [h1, h2, List.filter_map]
    have h3 : (isColLine ∘ (fun p : Nat × Col =>
        ILine.colLine p.1 p.2.name ((t.nrows : Int) - (nullCount p.2 : Int))
          p.2.dtype)) = fun _ => true := by
      funext p
      rfl
    rw [h3]
    simp
  refine ⟨hfilter, ?_⟩
  rw [hfilter, List.length_map, List.enum_length]

/-- C5 (amended): `summarize` prints exactly one memory line; its unit is
megabytes exactly when the estimated size is strictly greater than 1024²
bytes, and kilobytes whenever the size is less than or equal to 1024²
bytes — so the boundary value of exactly 1024² bytes is formatted in
kilobytes, not megabytes. -/
theorem info_memory_unit (t : Table) (mem : Nat) :
    (pandas_style_info t mem).filter isMemLine =
      [ILine.memLine (memParts mem).1 (memParts mem).2]
    ∧ ((memParts mem).1 = MemUnit.MB ↔ 1024 ^ 2 < mem)
    ∧ ((memParts mem).1 = MemUnit.KB ↔ mem ≤ 1024 ^ 2) := by
  refine ⟨?_, ?_, ?_⟩
  · rw [pandas_style_info_eq, List.filter_append, List.filter_append]
    have h1 : (infoHead t).filter isMemLine = [] := rfl
    have h2 : ([ILine.sep, ILine.dtypesLine (dtypesOf t),
        ILine.memLine (memParts mem).1 (memParts mem).2]).filter isMemLine =
          [ILine.memLine (memParts mem).1 (memParts mem).2] := rfl
    have h3 : (isMemLine ∘ (fun p : Nat × Col =>
        ILine.colLine p.1 p.2.name ((t.nrows : Int) - (nullCount p.2 : Int))
          p.2.dtype)) = fun _ => false := by
      funext p
      rfl
    rw [h1, h2, List.filter_map, h3, List.filter_false]
    rfl
  · unfold memParts
    by_cases h : 1024 ^ 2 < mem
    · rw [if_pos h]
      exact iff_of_true rfl h
    · rw [if_neg h]
      exact iff_of_false (fun hu => MemUnit.noConfusion hu) h
  · unfold memParts
    by_cases h : 1024 ^ 2 < mem
    · rw [if_pos h]
      exact iff_of_false (fun hu => MemUnit.noConfusion hu) (Nat.not_le.2 h)
    · rw [if_neg h]
      exact iff_of_true rfl (Nat.not_lt.1 h)

/-- Counterexample for C5 as stated: at an estimated size of exactly
1024² bytes the code takes the `else` branch and formats kilobytes
(1024.00 KB), not megabytes as the claim's boundary case requires. -/
theorem info_memory_boundary_cex :
    (pandas_style_info zeroRowT (1024 ^ 2)).filter isMemLine =
      [ILine.memLine MemUnit.KB (((1024 : Rat) ^ 2) / 1024)]
    ∧ MemUnit.KB ≠ MemUnit.MB := by
  constructor
  · rfl
  · intro h
    cases h

/-- C7: any failure of a step inside an operation's `try` block (the
engine failing to compute null counts or the size estimate, modelled as an
`Except.error` input, or a malformed counts list) is caught inside the
operation: exactly one diagnostic line reaches the error stream, never
more, and the operations always return their stream pair — no exception
propagates past the boundary (the functions are total, so returning
normally is intrinsic). For `null_report` the failure also leaves standard
output empty, since its header is printed inside the `try`. -/
theorem reporting_errors_caught (t : Table) (e : String) :
    (∀ sres : Except String Nat,
      (pandas_style_info_with t (Except.error e) sres).2 =
        ["Error generating info report: " ++ e])
    ∧ (pandas_style_info_with t (Except.ok (t.cols.map nullCount))
        (Except.error e)).2 = ["Error generating info report: " ++ e]
    ∧ (∀ (nres : Except String (List Nat)) (sres : Except String Nat),
        (pandas_style_info_with t nres sres).2.length ≤ 1)
    ∧ (null_report_with t (Except.error e)).2 =
        ["Error generating null report: " ++ e]
    ∧ (null_report_with t (Except.error e)).1 = []
    ∧ (∀ nres : Except String (List Nat),
        (null_report_with t nres).2.length ≤ 1) := by
  refine ⟨?_, ?_, ?_, ?_, ?_, ?_⟩
  · intro sres
    rfl
  · unfold pandas_style_info_with
    simp only [colLinesAux_correct]
  · intro nres sres
    cases nres with
    | error e2 => simp [pandas_style_info_with]
    | ok counts =>
        rcases hcl : colLinesAux t.nrows counts 0 t.cols with ⟨lines, err⟩
        simp only [pandas_style_info_with, hcl]
        cases err with
        | none =>
            cases sres with
            | error e2 => simp
            | ok mem => simp
        | some e2 => simp
  · rfl
  · rfl
  · intro nres
    cases nres with
    | error e2 => simp [null_report_with]
    | ok counts => simp [null_report_with]
